import Mathlib

/-!
Verification development for the IssueChrono repository: a shallow
embedding of the Gantt-chart frontend (task model, filter engine,
date-range/layout computation, scroll state, hit-testing, edit
reconciliation handlers) and of the backend multi-project issues
endpoint, with theorems settling the specification claims.

Conventions of the embedding:
* JavaScript `Date` values produced by parsing date-only strings are
  midnight-aligned; we represent them as civil dates (year, month, day)
  and convert to epoch day numbers with the standard civil-calendar
  algorithm (`toDays`), mirroring `getTime` comparisons up to the fixed
  86 400 000 ms/day factor.
* Pixel coordinates and scroll offsets are rationals (JS numbers used
  here stay within exact arithmetic: sums, differences, products).
* Asynchronous remote calls are modelled by an explicit outcome
  parameter: `true`/`Except.ok` for a resolved call, `false`/
  `Except.error` for a rejected one.
-/

namespace IssueChrono

/-- A civil calendar date (mirrors a midnight-aligned JS `Date`). -/
structure CivilDate where
  year : Int
  month : Int
  day : Int
deriving DecidableEq, Repr

/-- Epoch day number of a civil date (days since 1970-01-01), the
standard civil-from-date algorithm; mirrors `Date.getTime()` up to the
constant 86 400 000 ms/day for midnight-aligned dates. -/
def toDays (d : CivilDate) : Int :=
  let y := if d.month ≤ 2 then d.year - 1 else d.year
  let era := (if 0 ≤ y then y else y - 399) / 400
  let yoe := y - era * 400
  let mp := if 2 < d.month then d.month - 3 else d.month + 9
  let doy := (153 * mp + 2) / 5 + d.day - 1
  let doe := yoe * 365 + yoe / 4 - yoe / 100 + doy
  era * 146097 + doe - 719468

/-- `minDate.setDate(1)`: force the day-of-month to 1. -/
def setDate1 (d : CivilDate) : CivilDate :=
  { d with day := 1 }

/-- A GitLab label as carried on a task: `{name, color, text_color}`. -/
structure GLabel where
  name : String
  color : String
  text_color : String
deriving DecidableEq, Repr

/-- An assignee record: `{id, name, avatar_url}`. -/
structure Assignee where
  id : Int
  name : String
  avatar_url : String
deriving DecidableEq, Repr

/-- A milestone reference carried on a task: `{id, title}`. -/
structure Milestone where
  id : Int
  title : String
deriving DecidableEq, Repr

/-- The `Task` interface of the Gantt chart, restricted to the fields
the verified components read.  `start` is the schedule start (always
present and parseable, per the data-model invariant), `endDate` embeds
the nullable `end` field, `projectId` is optional. -/
structure Task where
  id : Int
  iid : Int
  projectId : Option String
  name : String
  description : String
  start : CivilDate
  endDate : Option CivilDate
  labels : List GLabel
  assignees : List Assignee
  milestone : Option Milestone
  state : String
deriving DecidableEq, Repr

/-- The persisted filter state: selected/excluded label names, selected
assignee ids, selected milestone ids, and the show-closed toggle. -/
structure FilterState where
  selectedLabels : List String
  excludedLabels : List String
  selectedAssignees : List Int
  selectedMilestones : List Int
  showClosedIssues : Bool
deriving DecidableEq, Repr

/-- The per-task predicate of the `filteredTasks` memo: drop closed
tasks unless shown, drop on any excluded label, then require the
conjunction of the include-label, assignee and milestone matches
(`taskLabels` is inlined as `t.labels.map (fun l => l.name)`). -/
def keepTask (fs : FilterState) (t : Task) : Bool :=
  if !fs.showClosedIssues && t.state == "closed" then
    false
  else if decide (0 < fs.excludedLabels.length) &&
      (t.labels.map (fun l => l.name)).any (fun l => fs.excludedLabels.contains l) then
    false
  else
    (fs.selectedLabels.isEmpty ||
      (t.labels.map (fun l => l.name)).any (fun l => fs.selectedLabels.contains l)) &&
    (fs.selectedAssignees.isEmpty ||
      t.assignees.any (fun a => fs.selectedAssignees.contains a.id)) &&
    (fs.selectedMilestones.isEmpty ||
      (match t.milestone with
        | some m => fs.selectedMilestones.contains m.id
        | none => false))

/-- `filteredTasks`: `tasks.filter(...)` with the predicate above. -/
def filterTasks (tasks : List Task) (fs : FilterState) : List Task :=
  tasks.filter (keepTask fs)

/-- The specification's reading of the filter rules, as the claim
states them: an AND of (a) not-closed-or-shown, (b) no excluded label,
(c) include-labels empty or some label included, (d) assignee ids empty
or some assignee selected, (e) milestone ids empty or the task's
milestone selected. -/
def specKeep (fs : FilterState) (t : Task) : Prop :=
  (t.state ≠ "closed" ∨ fs.showClosedIssues = true) ∧
  (∀ l ∈ t.labels, l.name ∉ fs.excludedLabels) ∧
  (fs.selectedLabels = [] ∨ ∃ l ∈ t.labels, l.name ∈ fs.selectedLabels) ∧
  (fs.selectedAssignees = [] ∨ ∃ a ∈ t.assignees, a.id ∈ fs.selectedAssignees) ∧
  (fs.selectedMilestones = [] ∨
    ∃ m, t.milestone = some m ∧ m.id ∈ fs.selectedMilestones)

/-- A sparse local update (`Partial<Task>` restricted to the fields the
edit handlers pass): present keys overwrite, absent keys are kept. -/
structure TaskPatch where
  name : Option String
  description : Option String
  labels : Option (List GLabel)
  assignees : Option (List Assignee)
  state : Option String
deriving DecidableEq, Repr

/-- `{ ...task, ...updates }`: spread-merge of a sparse patch. -/
def applyPatch (t : Task) (p : TaskPatch) : Task :=
  { t with
    name := p.name.getD t.name
    description := p.description.getD t.description
    labels := p.labels.getD t.labels
    assignees := p.assignees.getD t.assignees
    state := p.state.getD t.state }

/-- The local `updateTask` operation: map over the task list replacing
the task whose `id` matches with the patched task, all others kept. -/
def updateTask (tasks : List Task) (taskId : Int) (p : TaskPatch) : List Task :=
  tasks.map (fun t => if t.id == taskId then applyPatch t p else t)

/-- The patch `{ name: newTitle }` passed by `handleTitleChange`. -/
def titleOnlyPatch (s : String) : TaskPatch :=
  { name := some s, description := none, labels := none,
    assignees := none, state := none }

/-- `handleTitleChange`: find the task; bail out (list unchanged) when
it is missing or has no truthy `projectId`, or when the stored auth
values are missing (`hasAuth = false`); then `await` the remote PUT —
modelled by `remoteResolved` — and only if it resolves apply the local
`updateTask`; a rejection is caught and leaves the list unchanged. -/
def handleTitleChange (hasAuth remoteResolved : Bool) (tasks : List Task)
    (taskId : Int) (newTitle : String) : List Task :=
  match tasks.find? (fun t => t.id == taskId) with
  | none => tasks
  | some task =>
    match task.projectId with
    | none => tasks
    | some pid =>
      if pid = "" then tasks
      else if !hasAuth then tasks
      else if remoteResolved then updateTask tasks taskId (titleOnlyPatch newTitle)
      else tasks

/-- Helper building concrete tasks for witnesses and counterexamples. -/
def mkTask (id : Int) (nm st : String) (start : CivilDate)
    (endD : Option CivilDate) : Task :=
  { id := id, iid := id, projectId := some "1", name := nm,
    description := "", start := start, endDate := endD,
    labels := [], assignees := [], milestone := none, state := st }

def exTaskA : Task := mkTask 1 "Task A" "opened" ⟨2024, 1, 5⟩ (some ⟨2024, 1, 20⟩)

def exTaskB : Task := mkTask 2 "Task B" "opened" ⟨2024, 2, 1⟩ none

/-- The closed, open-ended second task of the spec's filter scenario. -/
def exClosedTask : Task := mkTask 2 "Task 2" "closed" ⟨2024, 2, 1⟩ none

/-- The spec scenario's filter state: nothing selected or excluded,
closed issues hidden. -/
def exScenarioFilter : FilterState :=
  { selectedLabels := [], excludedLabels := [], selectedAssignees := [],
    selectedMilestones := [], showClosedIssues := false }

/-- Fetch outcome used to refute C2: project "1" fails, project "2"
succeeds with one task. -/
def exFetch : String → Except Unit (List Task) := fun pid =>
  if pid = "1" then Except.error () else Except.ok [exTaskB]

/-- `Promise.all` over already-settled per-project outcomes: any
rejection rejects the whole combination (the first one, in list order,
is reported); otherwise the list of results is produced in order. -/
def promiseAll {E α : Type} : List (Except E α) → Except E (List α)
  | [] => Except.ok []
  | Except.error e :: _ => Except.error e
  | Except.ok a :: rest => (promiseAll rest).map (fun l => a :: l)

/-- The backend `GET /issues` route over a multi-project request: split
project ids, fetch each project's issues through the external
collaborator `fetch` (the paginated `getProjectIssues` plus the
per-issue formatting, an external HTTP concern), combine with
`Promise.all`, and respond with the flattened merged list; any
rejection falls to the route's outer catch, which sends an error
response (modelled as `Except.error`). -/
def issuesEndpoint {E : Type} (fetch : String → Except E (List Task))
    (projectIds : List String) : Except E (List Task) :=
  (promiseAll (projectIds.map fetch)).map List.flatten

/-- The date list collected by `drawChart`: each task contributes its
`start` and its `end`, or `new Date()` (the `now` parameter) when `end`
is null.  Dates are modelled as already parsed, so the code's `isNaN`
filter never fires — matching the claims' restriction to parseable
dates. -/
def collectDates (now : CivilDate) (tasks : List Task) : List CivilDate :=
  tasks.flatMap (fun t => [t.start, t.endDate.getD now])

/-- `new Date(Math.min(...dates.map(d => d.getTime())))`: the element
of the date list with the least epoch-day key (equal keys denote the
same midnight-aligned date, so keeping the first is faithful). -/
def minByDays (d : CivilDate) : List CivilDate → CivilDate
  | [] => d
  | x :: xs => minByDays (if toDays x < toDays d then x else d) xs

/-- `Math.max(...dates.map(d => d.getTime()))`, in epoch days. -/
def maxDaysAux (acc : Int) : List CivilDate → Int
  | [] => acc
  | x :: xs => maxDaysAux (max acc (toDays x)) xs

/-- The date-range block of `drawChart`: collect the dates; an empty
collection makes the draw return early (`none`); otherwise `minDate`
is the least date with `setDate(1)` applied, `maxDate` is the greatest
date plus 14 days (kept as an epoch-day number, since only day
differences are consumed), and `totalDays` is the day count between
them (`Math.ceil` is exact on midnight-aligned dates). -/
def computeDateRange (now : CivilDate) (tasks : List Task) :
    Option (CivilDate × Int × Int) :=
  match collectDates now tasks with
  | [] => none
  | d :: ds =>
    let minD := setDate1 (minByDays d ds)
    let maxD := maxDaysAux (toDays d) ds + 14
    some (minD, maxD, maxD - toDays minD)

/-- Claim-side characterization of the date range: the computation
succeeds, `minDate` is the earliest collected date with its
day-of-month forced to 1, and `maxDate` is the latest collected date
plus 14 days. -/
def dateRangeMatchesSpec (now : CivilDate) (tasks : List Task) : Prop :=
  ∃ minD maxD total, computeDateRange now tasks = some (minD, maxD, total) ∧
    minD.day = 1 ∧
    (∃ d ∈ collectDates now tasks,
      (∀ e ∈ collectDates now tasks, toDays d ≤ toDays e) ∧ minD = setDate1 d) ∧
    (∃ d ∈ collectDates now tasks,
      (∀ e ∈ collectDates now tasks, toDays e ≤ toDays d) ∧ maxD = toDays d + 14)

/-- Chart constant `dayWidth = 7`. -/
def dayWidth : ℚ := 7

/-- Chart constant `taskHeight = 45`. -/
def taskHeight : ℚ := 45

/-- Chart constant `headerHeight = 80`. -/
def headerHeight : ℚ := 80

/-- Chart constant `avatarColumnWidth = 40`. -/
def avatarColumnWidth : ℚ := 40

/-- Chart constant `infoColumnWidth = 400`. -/
def infoColumnWidth : ℚ := 400

/-- The bar's left edge in `drawChart`:
`avatarColumnWidth + infoColumnWidth + daysBetween(minDate, start) * dayWidth - scrollX`
(the millisecond difference divided by ms/day is the day difference for
midnight-aligned dates). -/
def barStartX (minD : CivilDate) (scrollX : ℚ) (t : Task) : ℚ :=
  avatarColumnWidth + infoColumnWidth +
    ((toDays t.start - toDays minD : ℤ) : ℚ) * dayWidth - scrollX

/-- The bar's right edge in `drawChart`: the same formula over `end`
when present, and `startX + dayWidth` when `end` is null. -/
def barEndX (minD : CivilDate) (scrollX : ℚ) (t : Task) : ℚ :=
  match t.endDate with
  | some e => avatarColumnWidth + infoColumnWidth +
      ((toDays e - toDays minD : ℤ) : ℚ) * dayWidth - scrollX
  | none => barStartX minD scrollX t + dayWidth

/-- `handleCanvasClick`: with the click point in canvas coordinates,
select a task only when x lies in the info-column span and y is at or
below the header; the row index is
`Math.floor((y + verticalScroll - headerHeight) / taskHeight)`, and an
index holding no task (including a negative one) clears the selection,
as does any click outside the span. -/
def handleCanvasClick (filteredTasks : List Task) (verticalScroll x y : ℚ) :
    Option Task :=
  if avatarColumnWidth ≤ x ∧ x ≤ avatarColumnWidth + infoColumnWidth ∧
      headerHeight ≤ y then
    let taskIndex : ℤ := ⌊(y + verticalScroll - headerHeight) / taskHeight⌋
    if h : 0 ≤ taskIndex ∧ taskIndex.toNat < filteredTasks.length then
      some (filteredTasks.get ⟨taskIndex.toNat, h.2⟩)
    else none
  else none

/-- The scroll-related component state: the two offsets and the two
stored maxima (`maxScroll`, `maxVerticalScroll`). -/
structure ScrollState where
  scrollPosition : ℚ
  verticalScroll : ℚ
  maxScroll : ℚ
  maxVerticalScroll : ℚ
deriving DecidableEq, Repr

/-- The scroll-state effect of one `drawChart` call: canvas dimensions
are clamped to the 800×600 minimum; with no drawable dates the draw
returns early and the state is untouched; otherwise both maxima are
recomputed from content vs. viewport, and the vertical offset is
clamped against the *previously stored* `maxVerticalScroll` (the React
state read inside the closure); the horizontal offset is not touched. -/
def drawChartScrollUpdate (now : CivilDate) (filteredTasks : List Task)
    (rectWidth rectHeight : ℚ) (s : ScrollState) : ScrollState :=
  let canvasWidth := max rectWidth 800
  let canvasHeight := max rectHeight 600
  match computeDateRange now filteredTasks with
  | none => s
  | some (_, _, totalDays) =>
    let totalContentHeight := headerHeight + (filteredTasks.length : ℚ) * taskHeight
    let visibleContentHeight := canvasHeight - headerHeight
    { scrollPosition := s.scrollPosition
      verticalScroll := min s.verticalScroll s.maxVerticalScroll
      maxScroll := max 0 ((totalDays : ℚ) * dayWidth -
        (canvasWidth - avatarColumnWidth - infoColumnWidth))
      maxVerticalScroll := max 0 (totalContentHeight - visibleContentHeight) }

/-- The effect on `filteredTasks` change: both scroll offsets (and the
slider values, not modelled) are reset to zero before redrawing. -/
def filterChangeReset (s : ScrollState) : ScrollState :=
  { s with scrollPosition := 0, verticalScroll := 0 }

/-- Claim-side bundle for the scroll recompute: maxima are nonnegative,
the horizontal offset passes through untouched, the vertical offset is
clamped against the previously stored maximum, and after a
filter-change reset both offsets are zero and within the new bounds. -/
def scrollRecomputeSpec (now : CivilDate) (tasks : List Task)
    (rectW rectH : ℚ) (s : ScrollState) : Prop :=
  0 ≤ (drawChartScrollUpdate now tasks rectW rectH s).maxScroll ∧
  0 ≤ (drawChartScrollUpdate now tasks rectW rectH s).maxVerticalScroll ∧
  (drawChartScrollUpdate now tasks rectW rectH s).scrollPosition =
    s.scrollPosition ∧
  (drawChartScrollUpdate now tasks rectW rectH s).verticalScroll =
    min s.verticalScroll s.maxVerticalScroll ∧
  (drawChartScrollUpdate now tasks rectW rectH
    (filterChangeReset s)).scrollPosition = 0 ∧
  (drawChartScrollUpdate now tasks rectW rectH
    (filterChangeReset s)).verticalScroll = 0 ∧
  (drawChartScrollUpdate now tasks rectW rectH
      (filterChangeReset s)).scrollPosition ≤
    (drawChartScrollUpdate now tasks rectW rectH
      (filterChangeReset s)).maxScroll ∧
  (drawChartScrollUpdate now tasks rectW rectH
      (filterChangeReset s)).verticalScroll ≤
    (drawChartScrollUpdate now tasks rectW rectH
      (filterChangeReset s)).maxVerticalScroll

/-- A scroll state whose horizontal offset exceeds the maximum a
shrunken layout will compute. -/
def exScrollState : ScrollState :=
  { scrollPosition := 100, verticalScroll := 0,
    maxScroll := 100, maxVerticalScroll := 0 }

/-- `assignee.avatar_url || ''` on a (total) string field. -/
def avatarOrEmpty (s : String) : String :=
  if s = "" then "" else s

/-- The `uniqueAssignees` pipeline before deduplication:
`tasks.flatMap(t => t.assignees || [])` filtered by the truthiness
check `assignee && assignee.id && assignee.name`, then projected to the
`{id, name, avatar_url}` records that are JSON-stringified. -/
def collectAssignees (tasks : List Task) : List Assignee :=
  ((tasks.flatMap (fun t => t.assignees)).filter
      (fun a => !(a.id == 0) && !(a.name == ""))).map
    (fun a => { id := a.id, name := a.name,
                avatar_url := avatarOrEmpty a.avatar_url })

/-- `new Set(...)` iteration order: keep the first occurrence of each
element, drop later duplicates (`seen` accumulates emitted elements). -/
def dedupFirstAux {α : Type} [DecidableEq α] (seen : List α) :
    List α → List α
  | [] => []
  | a :: l =>
    if a ∈ seen then dedupFirstAux seen l
    else a :: dedupFirstAux (a :: seen) l

/-- The comparator `(a, b) => a.name.localeCompare(b.name)`, embedded
as code-point (lexicographic) order on the name's character list. -/
def assigneeNameLe (a b : Assignee) : Prop :=
  a.name.data ≤ b.name.data

instance : DecidableRel assigneeNameLe :=
  fun a b => inferInstanceAs (Decidable (a.name.data ≤ b.name.data))

instance : IsTotal Assignee assigneeNameLe :=
  ⟨fun a b => le_total a.name.data b.name.data⟩

instance : IsTrans Assignee assigneeNameLe :=
  ⟨fun _ _ _ hab hbc => le_trans hab hbc⟩

/-- `uniqueAssignees`: stringify-projected assignees, set-deduplicated
(first occurrence kept), parsed back and sorted by name. -/
def uniqueAssignees (tasks : List Task) : List Assignee :=
  List.insertionSort assigneeNameLe (dedupFirstAux [] (collectAssignees tasks))

/-- Two assignee records sharing an id but differing in name. -/
def exAssigneeAlice : Assignee := { id := 1, name := "Alice", avatar_url := "" }

def exAssigneeBob : Assignee := { id := 1, name := "Bob", avatar_url := "" }

/-- A task carrying one given assignee. -/
def mkAssignedTask (id : Int) (a : Assignee) : Task :=
  { mkTask id "T" "opened" ⟨2024, 1, 5⟩ none with assignees := [a] }

def exC9Tasks : List Task :=
  [mkAssignedTask 1 exAssigneeAlice, mkAssignedTask 2 exAssigneeBob]

end IssueChrono

namespace IssueChrono

theorem promiseAll_error_of_mem {E α : Type} (l : List (Except E α))
    (h : ∃ x ∈ l, ∃ e, x = Except.error e) :
    ∃ e, promiseAll l = Except.error e := by
  induction l with
  | nil => simp at h
  | cons x rest ih =>
    rcases h with ⟨y, hy, e, he⟩
    rcases List.mem_cons.mp hy with rfl | hmem
    · rw [he]; exact ⟨e, rfl⟩
    · cases x with
      | error e' => exact ⟨e', rfl⟩
      | ok a =>
        obtain ⟨e'', he''⟩ := ih ⟨y, hmem, e, he⟩
        exact ⟨e'', by simp [promiseAll, he'', Except.map]⟩

theorem promiseAll_ok {E α : Type} (l : List (Except E α)) (res : List α)
    (h : promiseAll l = Except.ok res) : l = res.map Except.ok := by
  induction l generalizing res with
  | nil =>
    simp only [promiseAll, Except.ok.injEq] at h
    subst h
    rfl
  | cons x rest ih =>
    cases x with
    | error e => simp [promiseAll] at h
    | ok a =>
      simp only [promiseAll] at h
      cases hrest : promiseAll rest with
      | error e => rw [hrest] at h; simp [Except.map] at h
      | ok l' =>
        rw [hrest] at h
        simp only [Except.map, Except.ok.injEq] at h
        subst h
        simp [ih l' hrest]

theorem keepTask_iff (fs : FilterState) (t : Task) :
    keepTask fs t = true ↔ specKeep fs t := by
  unfold keepTask specKeep
  split_ifs with h1 h2
  · simp only [Bool.and_eq_true, Bool.not_eq_true', beq_iff_eq] at h1
    simp only [Bool.false_eq_true, false_iff]
    rintro ⟨ha | ha, -⟩
    · exact absurd h1.2 ha
    · exact absurd ha (by simp [h1.1])
  · simp only [Bool.and_eq_true, decide_eq_true_eq, List.any_eq_true,
      List.mem_map, List.elem_iff] at h2
    obtain ⟨-, nm, ⟨lab, hlab, rfl⟩, hmem⟩ := h2
    simp only [Bool.false_eq_true, false_iff]
    rintro ⟨-, hb, -⟩
    exact absurd hmem (hb lab hlab)
  · simp only [Bool.and_eq_true, Bool.not_eq_true', beq_iff_eq, not_and] at h1
    simp only [Bool.and_eq_true, decide_eq_true_eq, List.any_eq_true,
      List.mem_map, List.elem_iff, not_and, not_exists] at h2
    constructor
    · intro h
      simp only [Bool.and_eq_true, Bool.or_eq_true, List.isEmpty_iff,
        List.any_eq_true, List.mem_map, List.elem_iff] at h
      refine ⟨?_, ?_, ?_, ?_, ?_⟩
      · cases hsc : fs.showClosedIssues with
        | true => exact Or.inr rfl
        | false => exact Or.inl (h1 hsc)
      · intro l hl hmem
        cases hexcl : fs.excludedLabels with
        | nil => rw [hexcl] at hmem; exact List.not_mem_nil _ hmem
        | cons x xs =>
          exact h2 (by rw [hexcl]; simp) l.name ⟨l, hl, rfl⟩ hmem
      · rcases h.1.1 with h' | ⟨nm, ⟨lab, hlab, rfl⟩, hmem⟩
        · exact Or.inl h'
        · exact Or.inr ⟨lab, hlab, hmem⟩
      · rcases h.1.2 with h' | ⟨a, ha, hmem⟩
        · exact Or.inl h'
        · exact Or.inr ⟨a, ha, hmem⟩
      · rcases h.2 with h' | hm
        · exact Or.inl h'
        · cases hms : t.milestone with
          | none => rw [hms] at hm; exact absurd hm (by simp)
          | some m =>
            rw [hms] at hm
            exact Or.inr ⟨m, rfl, by simpa [List.elem_iff] using hm⟩
    · rintro ⟨-, -, hc, hd, he⟩
      simp only [Bool.and_eq_true, Bool.or_eq_true, List.isEmpty_iff,
        List.any_eq_true, List.mem_map, List.elem_iff]
      refine ⟨⟨?_, ?_⟩, ?_⟩
      · rcases hc with h' | ⟨l, hl, hmem⟩
        · exact Or.inl h'
        · exact Or.inr ⟨l.name, ⟨l, hl, rfl⟩, hmem⟩
      · rcases hd with h' | ⟨a, ha, hmem⟩
        · exact Or.inl h'
        · exact Or.inr ⟨a, ha, hmem⟩
      · rcases he with h' | ⟨m, hm, hmem⟩
        · exact Or.inl h'
        · rw [hm]
          exact Or.inr (by simpa [List.elem_iff] using hmem)

/-- C3: a task is kept by the filter iff the conjunction holds:
(a) its state is not "closed" or `showClosed` is set; (b) none of its
label names is excluded; (c) include-labels is empty or some label is
included; (d) assignee filter is empty or some assignee is selected;
(e) milestone filter is empty or the task's milestone is selected.
In particular a task carrying an excluded label is dropped even when
another of its labels matches the include list (the excluded-label
conjunct (b) fails, so the conjunction fails). -/
theorem filter_keeps_task_iff_conjunction (tasks : List Task)
    (fs : FilterState) (t : Task) :
    t ∈ filterTasks tasks fs ↔ t ∈ tasks ∧ specKeep fs t := by
  rw [filterTasks, List.mem_filter, keepTask_iff]

/-- C4: the filter is idempotent — filtering its own output under the
same filter state returns the same list. -/
theorem filter_idempotent (tasks : List Task) (fs : FilterState) :
    filterTasks (filterTasks tasks fs) fs = filterTasks tasks fs := by
  simp [filterTasks, List.filter_filter]

/-- C10: `updateTask` preserves the length (and hence order and
presence) of the task list, and every position holding a task whose id
differs from the edited one is left unchanged. -/
theorem updateTask_frame (tasks : List Task) (taskId : Int) (p : TaskPatch) :
    (updateTask tasks taskId p).length = tasks.length ∧
    ∀ (i : ℕ) (t : Task), tasks[i]? = some t → t.id ≠ taskId →
      (updateTask tasks taskId p)[i]? = some t := by
  constructor
  · exact List.length_map _ _
  · intro i t hget hid
    rw [updateTask, List.getElem?_map, hget]
    simp [hid]

/-- Witness for C10 at a concrete input: patching task 1's title keeps
the two-element list at length two and leaves task 2 (different id)
unchanged at its position. -/
theorem updateTask_frame_witness :
    (updateTask [exTaskA, exTaskB] 1 (titleOnlyPatch "X")).length =
      [exTaskA, exTaskB].length ∧
    (updateTask [exTaskA, exTaskB] 1 (titleOnlyPatch "X"))[1]? = some exTaskB :=
  ⟨(updateTask_frame [exTaskA, exTaskB] 1 (titleOnlyPatch "X")).1,
    (updateTask_frame [exTaskA, exTaskB] 1 (titleOnlyPatch "X")).2 1 exTaskB
      (by decide) (by decide)⟩

/-- Counterexample to C1: edit the title of task 1 while the remote
update rejects (`remoteResolved = false`).  The task list is unchanged
and the task's name is still "Task A", not the edited value — the
mutation is not applied before (or without) remote completion. -/
theorem title_edit_not_optimistic_counterexample :
    handleTitleChange true false [exTaskA] 1 "Edited" = [exTaskA] ∧
    (handleTitleChange true false [exTaskA] 1 "Edited").map (fun t => t.name) ≠
      ["Edited"] := by
  constructor
  · rfl
  · decide

/-- C1 (amended): the local mutation is applied only after the remote
update resolves.  If the remote call rejects the task list is unchanged
(rolled-forward edits never happen), and when it resolves the handler
either bails out unchanged (task/projectId/auth missing) or applies
exactly the local `updateTask` with the new title. -/
theorem title_edit_applied_only_on_success (hasAuth : Bool)
    (tasks : List Task) (taskId : Int) (newTitle : String) :
    handleTitleChange hasAuth false tasks taskId newTitle = tasks ∧
    (handleTitleChange true true tasks taskId newTitle = tasks ∨
      handleTitleChange true true tasks taskId newTitle =
        updateTask tasks taskId (titleOnlyPatch newTitle)) := by
  constructor
  · unfold handleTitleChange
    split
    · rfl
    · split
      · rfl
      · split_ifs <;> simp_all
  · unfold handleTitleChange
    split
    · exact Or.inl rfl
    · split
      · exact Or.inl rfl
      · split_ifs
        · exact Or.inl rfl
        · exact Or.inl rfl
        · exact Or.inr rfl
        · exact Or.inl rfl

/-- Counterexample to C2: with project "1" failing and project "2"
succeeding, the endpoint returns an error response (the rejection of
`Promise.all` reaches the route's outer catch), not the merged task
list of the successful projects. -/
theorem multi_project_fetch_counterexample :
    issuesEndpoint exFetch ["1", "2"] = Except.error () ∧
    issuesEndpoint exFetch ["1", "2"] ≠ Except.ok [exTaskB] := by
  constructor
  · rfl
  · intro h
    simp [issuesEndpoint, exFetch, promiseAll, Except.map] at h

/-- C2 (amended): the multi-project fetch is all-or-nothing.  If any
requested project's fetch rejects, the endpoint produces an error
response (no partial merged list); a task list is returned only when
every project's fetch succeeds, and then it is the flattening, in
request order, of the per-project lists. -/
theorem multi_project_fetch_all_or_nothing {E : Type}
    (fetch : String → Except E (List Task)) (projectIds : List String) :
    ((∃ p ∈ projectIds, ∃ e, fetch p = Except.error e) →
      ∃ e, issuesEndpoint fetch projectIds = Except.error e) ∧
    (∀ ts, issuesEndpoint fetch projectIds = Except.ok ts →
      ∃ lists : List (List Task),
        projectIds.map fetch = lists.map Except.ok ∧ ts = lists.flatten) := by
  constructor
  · rintro ⟨p, hp, e, he⟩
    obtain ⟨e', he'⟩ := promiseAll_error_of_mem (projectIds.map fetch)
      ⟨fetch p, List.mem_map_of_mem fetch hp, e, he⟩
    exact ⟨e', by simp [issuesEndpoint, he', Except.map]⟩
  · intro ts hts
    rw [issuesEndpoint] at hts
    cases hall : promiseAll (projectIds.map fetch) with
    | error e => rw [hall] at hts; simp [Except.map] at hts
    | ok lists =>
      rw [hall] at hts
      simp only [Except.map, Except.ok.injEq] at hts
      exact ⟨lists, promiseAll_ok _ _ hall, hts.symm⟩

/-- Witness for the amended C2 at concrete inputs: with a failing
project in the request the endpoint errors, and with all projects
succeeding it returns the flattened lists. -/
theorem multi_project_fetch_all_or_nothing_witness :
    (∃ e, issuesEndpoint exFetch ["1", "2"] = Except.error e) ∧
    (∃ lists : List (List Task),
      ["2"].map exFetch = lists.map Except.ok ∧ [exTaskB] = lists.flatten) :=
  ⟨(multi_project_fetch_all_or_nothing exFetch ["1", "2"]).1
      ⟨"1", by simp, (), by simp [exFetch]⟩,
    (multi_project_fetch_all_or_nothing exFetch ["2"]).2 [exTaskB] (by rfl)⟩

theorem minByDays_spec (d : CivilDate) (ds : List CivilDate) :
    minByDays d ds ∈ d :: ds ∧
    ∀ x ∈ d :: ds, toDays (minByDays d ds) ≤ toDays x := by
  induction ds generalizing d with
  | nil =>
    refine ⟨by simp [minByDays], ?_⟩
    intro x hx
    rcases List.mem_cons.mp hx with rfl | h
    · exact le_refl _
    · exact absurd h (List.not_mem_nil x)
  | cons y ys ih =>
    obtain ⟨ihm, ihle⟩ := ih (if toDays y < toDays d then y else d)
    have hstep : minByDays d (y :: ys) =
        minByDays (if toDays y < toDays d then y else d) ys := rfl
    constructor
    · rw [hstep]
      rcases List.mem_cons.mp ihm with h | h
      · rw [h]
        split_ifs
        · exact List.mem_cons_of_mem d (List.mem_cons_self y ys)
        · exact List.mem_cons_self d (y :: ys)
      · exact List.mem_cons_of_mem d (List.mem_cons_of_mem y h)
    · intro x hx
      rw [hstep]
      rcases List.mem_cons.mp hx with rfl | hx'
      · refine le_trans (ihle _ (List.mem_cons_self _ ys)) ?_
        split_ifs with hc
        · exact le_of_lt hc
        · exact le_refl _
      · rcases List.mem_cons.mp hx' with rfl | hx''
        · refine le_trans (ihle _ (List.mem_cons_self _ ys)) ?_
          split_ifs with hc
          · exact le_refl _
          · exact le_of_not_lt hc
        · exact ihle x (List.mem_cons_of_mem _ hx'')

theorem maxDaysAux_spec (acc : Int) (ds : List CivilDate) :
    (maxDaysAux acc ds = acc ∨ ∃ x ∈ ds, maxDaysAux acc ds = toDays x) ∧
    acc ≤ maxDaysAux acc ds ∧
    ∀ x ∈ ds, toDays x ≤ maxDaysAux acc ds := by
  induction ds generalizing acc with
  | nil => exact ⟨Or.inl rfl, le_refl _, by simp⟩
  | cons y ys ih =>
    obtain ⟨ihv, ihacc, ihub⟩ := ih (max acc (toDays y))
    have hstep : maxDaysAux acc (y :: ys) =
        maxDaysAux (max acc (toDays y)) ys := rfl
    refine ⟨?_, ?_, ?_⟩
    · rw [hstep]
      rcases ihv with h | ⟨x, hx, hxe⟩
      · rcases le_total acc (toDays y) with hle | hle
        · exact Or.inr ⟨y, List.mem_cons_self y ys,
            by rw [h, max_eq_right hle]⟩
        · exact Or.inl (by rw [h, max_eq_left hle])
      · exact Or.inr ⟨x, List.mem_cons_of_mem y hx, hxe⟩
    · rw [hstep]
      exact le_trans (le_max_left _ _) ihacc
    · intro x hx
      rw [hstep]
      rcases List.mem_cons.mp hx with rfl | hx'
      · exact le_trans (le_max_right _ _) ihacc
      · exact ihub x hx'

/-- C5: for every nonempty task list (dates being parseable is built
into the embedding), the computed `minDate` is the earliest of the
collected task dates with its day-of-month forced to 1, and `maxDate`
is the latest collected date plus 14 days; and in the concrete spec
scenario (task 1 opened 2024-01-05..2024-01-20, task 2 closed and
hidden by the filter), `minDate` is 2024-01-01. -/
theorem date_range_month_floor_and_padding :
    (∀ (now : CivilDate) (tasks : List Task), tasks ≠ [] →
      dateRangeMatchesSpec now tasks) ∧
    (filterTasks [exTaskA, exClosedTask] exScenarioFilter = [exTaskA] ∧
      ∃ maxD total,
        computeDateRange ⟨2024, 3, 15⟩
            (filterTasks [exTaskA, exClosedTask] exScenarioFilter) =
          some (⟨2024, 1, 1⟩, maxD, total)) := by
  constructor
  · intro now tasks hne
    have hcd : collectDates now tasks ≠ [] := by
      cases tasks with
      | nil => exact absurd rfl hne
      | cons t ts => simp [collectDates]
    cases hc : collectDates now tasks with
    | nil => exact absurd hc hcd
    | cons d ds =>
      obtain ⟨hmem, hle⟩ := minByDays_spec d ds
      obtain ⟨hv, hacc, hub⟩ := maxDaysAux_spec (toDays d) ds
      refine ⟨setDate1 (minByDays d ds), maxDaysAux (toDays d) ds + 14,
        maxDaysAux (toDays d) ds + 14 - toDays (setDate1 (minByDays d ds)),
        ?_, rfl, ?_, ?_⟩
      · simp only [computeDateRange, hc]
      · exact ⟨minByDays d ds, by rw [hc]; exact hmem,
          by rw [hc]; exact hle, rfl⟩
      · rcases hv with h | ⟨x, hx, hxe⟩
        · refine ⟨d, by rw [hc]; exact List.mem_cons_self d ds, ?_, by rw [h]⟩
          rw [hc]
          intro e he
          rcases List.mem_cons.mp he with rfl | he'
          · exact le_refl _
          · exact h ▸ hub e he'
        · refine ⟨x, by rw [hc]; exact List.mem_cons_of_mem d hx, ?_,
            by rw [hxe]⟩
          rw [hc]
          intro e he
          rcases List.mem_cons.mp he with rfl | he'
          · exact hxe ▸ hacc
          · exact hxe ▸ hub e he'
  · constructor
    · rfl
    · exact ⟨19756, 33, by decide⟩

/-- Witness for C5 at a concrete input: the date-range property holds
for the singleton list of the scenario's visible task. -/
theorem date_range_month_floor_and_padding_witness :
    dateRangeMatchesSpec ⟨2024, 3, 15⟩ [exTaskA] :=
  date_range_month_floor_and_padding.1 ⟨2024, 3, 15⟩ [exTaskA]
    (List.cons_ne_nil exTaskA [])

/-- C6: for every task whose `end` is null, the rendered bar's
horizontal extent is exactly one day's pixel width —
`endX - startX = dayWidth` — independently of the task's start date,
the chart's `minDate` and the scroll offset. -/
theorem open_ended_bar_one_day_wide (minD : CivilDate) (scrollX : ℚ)
    (t : Task) (h : t.endDate = none) :
    barEndX minD scrollX t - barStartX minD scrollX t = dayWidth := by
  unfold barEndX
  rw [h]
  ring

/-- Witness for C6 at a concrete input: the open-ended task `exTaskB`
gets a bar exactly `dayWidth` wide. -/
theorem open_ended_bar_one_day_wide_witness :
    exTaskB.endDate = none ∧
    barEndX ⟨2024, 1, 1⟩ 25 exTaskB - barStartX ⟨2024, 1, 1⟩ 25 exTaskB =
      dayWidth :=
  ⟨rfl, open_ended_bar_one_day_wide ⟨2024, 1, 1⟩ 25 exTaskB rfl⟩

/-- C7: the canvas hit-test selects a task exactly when the click x
lies within the fixed info-column span, y is at or below the header,
and the row index `⌊(y + verticalScroll - headerHeight) / taskHeight⌋`
holds a task of the filtered list — and then it selects that task; in
every other situation (outside the span, or no task at the index) the
selection is cleared. -/
theorem canvas_click_hit_test (ts : List Task) (vs x y : ℚ) (t : Task) :
    handleCanvasClick ts vs x y = some t ↔
      avatarColumnWidth ≤ x ∧ x ≤ avatarColumnWidth + infoColumnWidth ∧
      headerHeight ≤ y ∧
      ∃ (i : ℕ) (hi : i < ts.length),
        (i : ℤ) = ⌊(y + vs - headerHeight) / taskHeight⌋ ∧
        t = ts.get ⟨i, hi⟩ := by
  simp only [handleCanvasClick]
  split_ifs with h1 h2
  · simp only [Option.some.injEq]
    constructor
    · intro h
      exact ⟨h1.1, h1.2.1, h1.2.2,
        ⌊(y + vs - headerHeight) / taskHeight⌋.toNat, h2.2,
        Int.toNat_of_nonneg h2.1, h.symm⟩
    · rintro ⟨-, -, -, i, hi, hidx, rfl⟩
      have hnat : (⌊(y + vs - headerHeight) / taskHeight⌋).toNat = i := by
        omega
      exact congrArg ts.get (Fin.ext hnat)
  · constructor
    · intro h
      exact h.elim
    · rintro ⟨-, -, -, i, hi, hidx, rfl⟩
      exact absurd ⟨by omega, by omega⟩ h2
  · constructor
    · intro h
      exact h.elim
    · rintro ⟨ha, hb, hc, -⟩
      exact absurd ⟨ha, hb, hc⟩ h1

/-- C8 (amended): after a recompute on a nonempty task list, both
stored maxima are nonnegative; the vertical offset is clamped — but
against the previously stored `maxVerticalScroll`, while the horizontal
offset passes through unclamped; after a filter change both offsets are
reset to zero and therefore lie within the newly computed bounds. -/
theorem scroll_recompute_properties (now : CivilDate) (ts : List Task)
    (rectW rectH : ℚ) (s : ScrollState) (hts : ts ≠ [])
    (hmv : 0 ≤ s.maxVerticalScroll) :
    scrollRecomputeSpec now ts rectW rectH s := by
  obtain ⟨⟨minD, maxD, total⟩, hv⟩ :
      ∃ v, computeDateRange now ts = some v := by
    cases ts with
    | nil => exact absurd rfl hts
    | cons t ts' =>
      have hcd : collectDates now (t :: ts') =
          t.start :: t.endDate.getD now :: collectDates now ts' := rfl
      simp only [computeDateRange, hcd]
      exact ⟨_, rfl⟩
  unfold scrollRecomputeSpec
  have hred : ∀ st : ScrollState,
      drawChartScrollUpdate now ts rectW rectH st =
        { scrollPosition := st.scrollPosition
          verticalScroll := min st.verticalScroll st.maxVerticalScroll
          maxScroll := max 0 ((total : ℚ) * dayWidth -
            (max rectW 800 - avatarColumnWidth - infoColumnWidth))
          maxVerticalScroll := max 0 ((headerHeight +
            (ts.length : ℚ) * taskHeight) - (max rectH 600 - headerHeight)) } := by
    intro st
    simp only [drawChartScrollUpdate, hv]
  rw [hred s, hred (filterChangeReset s)]
  exact ⟨le_max_left 0 _, le_max_left 0 _, rfl, rfl, rfl,
    min_eq_left hmv, le_max_left 0 _,
    le_trans (min_le_left _ _) (le_max_left 0 _)⟩

/-- Witness for the amended C8 at a concrete input. -/
theorem scroll_recompute_properties_witness :
    scrollRecomputeSpec ⟨2024, 3, 15⟩ [exTaskA] 0 0 exScrollState :=
  scroll_recompute_properties ⟨2024, 3, 15⟩ [exTaskA] 0 0 exScrollState
    (List.cons_ne_nil exTaskA []) (le_refl 0)

/-- Counterexample to C8: starting from `offsetX = maxScroll = 100`, a
redraw of a small task set in a large (800×600 minimum) viewport
computes `maxScroll = 0` but leaves `offsetX = 100` — the horizontal
offset is not clamped to the newly computed maximum. -/
theorem scroll_offset_exceeds_max_counterexample :
    (drawChartScrollUpdate ⟨2024, 3, 15⟩ [exTaskA] 0 0
        exScrollState).scrollPosition = 100 ∧
    (drawChartScrollUpdate ⟨2024, 3, 15⟩ [exTaskA] 0 0
        exScrollState).maxScroll = 0 ∧
    ¬((drawChartScrollUpdate ⟨2024, 3, 15⟩ [exTaskA] 0 0
        exScrollState).scrollPosition ≤
      (drawChartScrollUpdate ⟨2024, 3, 15⟩ [exTaskA] 0 0
        exScrollState).maxScroll) := by
  have hv : computeDateRange ⟨2024, 3, 15⟩ [exTaskA] =
      some (⟨2024, 1, 1⟩, 19756, 33) := by decide
  have h1 : (drawChartScrollUpdate ⟨2024, 3, 15⟩ [exTaskA] 0 0
      exScrollState).scrollPosition = 100 := by
    simp [drawChartScrollUpdate, hv, exScrollState]
  have h2 : (drawChartScrollUpdate ⟨2024, 3, 15⟩ [exTaskA] 0 0
      exScrollState).maxScroll = 0 := by
    simp only [drawChartScrollUpdate, hv, dayWidth, avatarColumnWidth,
      infoColumnWidth, max_def]
    norm_num
  refine ⟨h1, h2, ?_⟩
  rw [h1, h2]
  norm_num

theorem dedupFirstAux_mem {α : Type} [DecidableEq α] (seen l : List α)
    (a : α) : a ∈ dedupFirstAux seen l ↔ a ∈ l ∧ a ∉ seen := by
  induction l generalizing seen with
  | nil => simp [dedupFirstAux]
  | cons x xs ih =>
    by_cases hx : x ∈ seen
    · simp only [dedupFirstAux, if_pos hx, ih, List.mem_cons]
      constructor
      · rintro ⟨h1, h2⟩
        exact ⟨Or.inr h1, h2⟩
      · rintro ⟨rfl | h1, h2⟩
        · exact absurd hx h2
        · exact ⟨h1, h2⟩
    · simp only [dedupFirstAux, if_neg hx, List.mem_cons, ih]
      constructor
      · rintro (rfl | ⟨h1, h2⟩)
        · exact ⟨Or.inl rfl, hx⟩
        · rw [not_or] at h2
          exact ⟨Or.inr h1, h2.2⟩
      · rintro ⟨rfl | h1, h2⟩
        · exact Or.inl rfl
        · by_cases hax : a = x
          · exact Or.inl hax
          · exact Or.inr ⟨h1, fun hor => hor.elim hax h2⟩

theorem dedupFirstAux_nodup {α : Type} [DecidableEq α] (seen l : List α) :
    (dedupFirstAux seen l).Nodup := by
  induction l generalizing seen with
  | nil => simp [dedupFirstAux]
  | cons x xs ih =>
    by_cases hx : x ∈ seen
    · rw [dedupFirstAux, if_pos hx]
      exact ih seen
    · rw [dedupFirstAux, if_neg hx, List.nodup_cons]
      refine ⟨fun hmem => ?_, ih (x :: seen)⟩
      exact ((dedupFirstAux_mem (x :: seen) xs x).mp hmem).2
        (List.mem_cons_self x seen)

/-- C9 (amended): `uniqueAssignees`, computed over the unfiltered task
set, is sorted by assignee name and holds exactly one entry per
distinct `(id, name, avatar_url)` record occurring among the truthy
assignees — not one per distinct id: records sharing an id but
differing in name or avatar remain separate entries. -/
theorem unique_assignees_sorted_dedup_by_record (tasks : List Task) :
    List.Sorted assigneeNameLe (uniqueAssignees tasks) ∧
    (uniqueAssignees tasks).Nodup ∧
    ∀ a, a ∈ uniqueAssignees tasks ↔ a ∈ collectAssignees tasks := by
  refine ⟨List.sorted_insertionSort assigneeNameLe _, ?_, ?_⟩
  · exact (List.perm_insertionSort assigneeNameLe _).nodup_iff.mpr
      (dedupFirstAux_nodup [] _)
  · intro a
    rw [uniqueAssignees, (List.perm_insertionSort assigneeNameLe _).mem_iff,
      dedupFirstAux_mem]
    simp

/-- Counterexample to C9: two assignee records with the same id but
different names produce two facet entries, so the facet is not
"exactly one entry per distinct assignee id". -/
theorem unique_assignees_by_id_counterexample :
    (uniqueAssignees exC9Tasks).map (fun a => a.id) = [1, 1] := by
  decide

end IssueChrono
